import Mathlib

/-!
# The process scheduler of `OS_Starter_Code/scheduler.c`

A shallow embedding of the scheduler: the global variables of `scheduler.c`
become the fields of `Sched`, every C function becomes a function on `Sched`.

Conventions of the embedding.

* C `int` and `pid_t` values are mathematical integers (`Int`); the development
  covers the executions in which no signed arithmetic overflows.
* `readyQueue[0 .. readyQueueSize-1]` is the list `Sched.readyQueue`; its length
  is `readyQueueSize`.  The array is a zero-initialised global of
  `MAX_PROCESSES` slots.
* `getClk()` is the argument `now`; `fork()` is the argument `forkPid`, the
  value `fork` returns to the scheduler process itself (a child pid, or `-1`).
  The branch `pid == 0` runs in the child only, which replaces its image by
  `process.out` (or exits); it is no transition of the scheduler.
* `fprintf(logFile, ...)` appends a `LogEvent` to `Sched.log`; `fork` and `kill`
  append an `OsEvent` to `Sched.os`.
-/

namespace Scheduler

/-- The record `struct PCB` of `scheduler.c`. -/
structure PCB where
  id : Int
  arrivalTime : Int
  runtime : Int
  remainingTime : Int
  priority : Int
  waitingTime : Int
  startTime : Int
  endTime : Int
  pid : Int
  started : Bool
deriving DecidableEq, Repr

/-- A slot of the zero-initialised global array that was never written. -/
def PCB.zero : PCB :=
  { id := 0, arrivalTime := 0, runtime := 0, remainingTime := 0, priority := 0,
    waitingTime := 0, startTime := 0, endTime := 0, pid := 0, started := false }

/-- The payload `msg.p` of an admission message (`id`, `arrivalTime`, `runtime`,
`priority`). -/
structure Descriptor where
  id : Int
  arrivalTime : Int
  runtime : Int
  priority : Int
deriving DecidableEq, Repr

/-- One line of `scheduler.log`.  The fields are the `%d` arguments of the
`fprintf` call, in order; the `%.2f` argument of the "finished" line is the
quotient of its `ta` and `total` fields and is not stored. -/
inductive LogEvent where
  | added (time id : Int)
  | started (time id arr total remain wait : Int)
  | resumed (time id arr total remain wait : Int)
  | stopped (time id : Int)
  | finished (time id arr total remain wait ta : Int)
deriving DecidableEq, Repr

/-- The two signals the scheduler sends to a worker. -/
inductive Signal where
  | SIGSTOP
  | SIGCONT
deriving DecidableEq, Repr

/-- The interaction of the scheduler with the operating system, in the order it
happens: `fork pid arg` is a `fork()` that returned `pid` to the scheduler, the
child running `process.out arg`; `kill pid sig` is `kill(pid, sig)`; `exited pid`
is the termination of worker `pid`, reported by `waitpid`. -/
inductive OsEvent where
  | fork (pid arg : Int)
  | kill (pid : Int) (sig : Signal)
  | exited (pid : Int)
deriving DecidableEq, Repr

/-- The global variables of `scheduler.c` (with the `static` local
`lastExecutionTime` of `scheduleRR`), the log file and the OS trace. -/
structure Sched where
  readyQueue : List PCB
  currentProcessIndex : Int
  runningProcessPid : Int
  totalProcesses : Int
  cpuBusyTime : Int
  lastExecutionTime : Int
  log : List LogEvent
  os : List OsEvent
deriving DecidableEq, Repr

/-- The initial values of the globals. -/
def Sched.init : Sched :=
  { readyQueue := [], currentProcessIndex := -1, runningProcessPid := -1,
    totalProcesses := 0, cpuBusyTime := 0, lastExecutionTime := -1,
    log := [], os := [] }

/-- The capacity of the array `readyQueue`. -/
def MAX_PROCESSES : Nat := 100

/-- The read `readyQueue[i]` for a C index `i`. -/
def readAt (q : List PCB) (i : Int) : PCB :=
  if 0 ≤ i then q.getD i.toNat PCB.zero else PCB.zero

/-- The write `readyQueue[i] = v` for a C index `i` below `readyQueueSize`. -/
def writeAt (q : List PCB) (i : Int) (v : PCB) : List PCB :=
  if 0 ≤ i then q.set i.toNat v else q

/-- The PCB built from a received message (`main`, lines 103-113). -/
def newProcess (d : Descriptor) : PCB :=
  { id := d.id, arrivalTime := d.arrivalTime, runtime := d.runtime,
    remainingTime := d.runtime, priority := d.priority, waitingTime := 0,
    startTime := -1, endTime := -1, pid := -1, started := false }

/-- The admission step of one loop iteration (`main`, lines 100-120): a single
non-blocking `msgrcv` on the channel holding `pending`.  The result is the new
state and the messages left on the channel; `none` when the write
`readyQueue[readyQueueSize++]` would fall outside the array. -/
def admission (s : Sched) (pending : List Descriptor) (now : Int) :
    Option (Sched × List Descriptor) :=
  match pending with
  | [] => some (s, [])
  | d :: rest =>
    if s.readyQueue.length < MAX_PROCESSES then
      some ({ s with
                readyQueue := s.readyQueue ++ [newProcess d]
                totalProcesses := s.totalProcesses + 1
                log := s.log ++ [LogEvent.added now d.id] }, rest)
    else none

/-- The selection loop shared by `scheduleSJF` (lines 155-162, `key` is
`remainingTime`) and `schedulePHPF` (lines 191-198, `key` is `priority`):
`rest` is the part of `q` from index `i` on, `best` is the index variable
(`-1` while nothing is selected). -/
def scanLoop (key : PCB → Int) (q : List PCB) : List PCB → Nat → Int → Int
  | [], _, best => best
  | p :: rest, i, best =>
    scanLoop key q rest (i + 1)
      (if p.remainingTime > 0 then
        (if best = -1 ∨ key p < key (readAt q best) then (i : Int) else best)
      else best)

/-- The value of `shortestIndex` after the loop of `scheduleSJF`. -/
def shortestIndex (q : List PCB) : Int :=
  scanLoop PCB.remainingTime q q 0 (-1)

/-- The value of `highestPriorityIndex` after the loop of `schedulePHPF`. -/
def highestPriorityIndex (q : List PCB) : Int :=
  scanLoop PCB.priority q q 0 (-1)

/-- The function `scheduleSJF` (lines 148-186). -/
def scheduleSJF (s : Sched) (now forkPid : Int) : Sched :=
  if s.runningProcessPid ≠ -1 then s
  else
    let k := shortestIndex s.readyQueue
    if k ≠ -1 then
      let process := readAt s.readyQueue k
      { s with
          readyQueue := writeAt s.readyQueue k
            { process with pid := forkPid, started := true, startTime := now }
          runningProcessPid := forkPid
          currentProcessIndex := k
          cpuBusyTime := s.cpuBusyTime + process.runtime
          log := s.log ++ [LogEvent.started now process.id process.arrivalTime
            process.runtime process.remainingTime process.waitingTime]
          os := s.os ++ [OsEvent.fork forkPid process.remainingTime] }
    else s

/-- Lines 209-214 of `schedulePHPF`: the running worker is stopped when the
selected PCB `hp` has a strictly smaller priority value. -/
def phpfPause (s : Sched) (hp : PCB) (now : Int) : Sched :=
  if s.runningProcessPid ≠ -1 ∧
      hp.priority < (readAt s.readyQueue s.currentProcessIndex).priority then
    { s with
        os := s.os ++ [OsEvent.kill s.runningProcessPid Signal.SIGSTOP]
        log := s.log ++
          [LogEvent.stopped now (readAt s.readyQueue s.currentProcessIndex).id] }
  else s

/-- Lines 216-241 of `schedulePHPF`: the PCB at index `k` is spawned when it has
no pid, and sent `SIGCONT` otherwise. -/
def phpfStart (s : Sched) (k : Int) (now forkPid : Int) : Sched :=
  let hp := readAt s.readyQueue k
  if hp.pid = -1 then
    { s with
        readyQueue := writeAt s.readyQueue k
          { hp with pid := forkPid, startTime := now }
        os := s.os ++ [OsEvent.fork forkPid hp.remainingTime]
        log := s.log ++ [LogEvent.started now hp.id hp.arrivalTime hp.runtime
          hp.remainingTime hp.waitingTime] }
  else
    { s with
        os := s.os ++ [OsEvent.kill hp.pid Signal.SIGCONT]
        log := s.log ++ [LogEvent.resumed now hp.id hp.arrivalTime hp.runtime
          hp.remainingTime hp.waitingTime] }

/-- The function `schedulePHPF` (lines 189-248). -/
def schedulePHPF (s : Sched) (now forkPid : Int) : Sched :=
  let k := highestPriorityIndex s.readyQueue
  if k = -1 then s
  else
    let hp := readAt s.readyQueue k
    if s.runningProcessPid = -1 ∨
        hp.priority < (readAt s.readyQueue s.currentProcessIndex).priority then
      let s2 := phpfStart (phpfPause s hp now) k now forkPid
      { s2 with
          runningProcessPid := (readAt s2.readyQueue k).pid
          currentProcessIndex := k }
    else s

/-- The loop of lines 265-267, `readyQueue[i] = readyQueue[i + 1]`, run from
index `i` for `n` iterations. -/
def shiftLoop : Nat → Nat → List PCB → List PCB
  | 0, _, q => q
  | n + 1, i, q => shiftLoop n (i + 1) (q.set i (q.getD (i + 1) PCB.zero))

/-- Lines 264-268 of `scheduleRR`: the PCB at C index `k` is moved behind the
last one. -/
def moveToTail (q : List PCB) (k : Int) : List PCB :=
  let temp := readAt q k
  writeAt (shiftLoop (q.length - 1 - k.toNat) k.toNat q) ((q.length : Int) - 1) temp

/-- Lines 254-273 of `scheduleRR`: the running worker is stopped and rotated to
the tail once its time slice is used up. -/
def rrPreempt (s : Sched) (now timeQuantum : Int) : Sched :=
  if s.runningProcessPid ≠ -1 then
    if now - s.lastExecutionTime ≥ timeQuantum then
      { s with
          os := s.os ++ [OsEvent.kill s.runningProcessPid Signal.SIGSTOP]
          log := s.log ++
            [LogEvent.stopped now (readAt s.readyQueue s.currentProcessIndex).id]
          readyQueue := moveToTail s.readyQueue s.currentProcessIndex
          runningProcessPid := -1
          currentProcessIndex := -1 }
    else s
  else s

/-- Lines 278-302 of `scheduleRR`: the head of the queue is spawned when it has
no pid, and sent `SIGCONT` otherwise. -/
def rrStart (s : Sched) (now forkPid : Int) : Sched :=
  let nextProcess := readAt s.readyQueue 0
  if nextProcess.pid = -1 then
    { s with
        readyQueue := writeAt s.readyQueue 0
          { nextProcess with
              pid := forkPid
              startTime := if nextProcess.startTime = -1 then now
                           else nextProcess.startTime }
        os := s.os ++ [OsEvent.fork forkPid nextProcess.remainingTime]
        log := s.log ++ [LogEvent.started now nextProcess.id
          nextProcess.arrivalTime nextProcess.runtime nextProcess.remainingTime
          nextProcess.waitingTime] }
  else
    { s with
        os := s.os ++ [OsEvent.kill nextProcess.pid Signal.SIGCONT]
        log := s.log ++ [LogEvent.resumed now nextProcess.id
          nextProcess.arrivalTime nextProcess.runtime nextProcess.remainingTime
          nextProcess.waitingTime] }

/-- Lines 275-308 of `scheduleRR`: with an empty running slot the head of the
queue is dispatched. -/
def rrDispatch (s : Sched) (now forkPid : Int) : Sched :=
  if s.runningProcessPid = -1 ∧ s.readyQueue.length > 0 then
    let s1 := rrStart s now forkPid
    { s1 with
        runningProcessPid := (readAt s1.readyQueue 0).pid
        currentProcessIndex := 0
        lastExecutionTime := now }
  else s

/-- The function `scheduleRR` (lines 251-309). -/
def scheduleRR (s : Sched) (now timeQuantum forkPid : Int) : Sched :=
  rrDispatch (rrPreempt s now timeQuantum) now forkPid

/-- The function `handleProcessCompletion` (lines 322-343); `pid` is the value
returned by `waitpid(-1, &status, WNOHANG)`. -/
def handleProcessCompletion (s : Sched) (pid now : Int) : Sched :=
  if pid > 0 then
    if s.runningProcessPid = pid then
      let process := readAt s.readyQueue s.currentProcessIndex
      let TA := now - process.arrivalTime
      { s with
          readyQueue := writeAt s.readyQueue s.currentProcessIndex
            { process with endTime := now, waitingTime := TA - process.runtime }
          runningProcessPid := -1
          currentProcessIndex := -1
          log := s.log ++ [LogEvent.finished now process.id process.arrivalTime
            process.runtime 0 (TA - process.runtime) TA] }
    else s
  else s

/-- The `switch (currentAlgorithm)` of the scheduler loop (lines 123-136);
`none` is the `default` case, in which `main` returns. -/
def schedule (algorithm : Int) (timeQuantum : Int) (s : Sched) (now forkPid : Int) :
    Option Sched :=
  if algorithm = 1 then some (scheduleSJF s now forkPid)
  else if algorithm = 2 then some (schedulePHPF s now forkPid)
  else if algorithm = 3 then some (scheduleRR s now timeQuantum forkPid)
  else none

/-- One iteration of the scheduler loop (lines 99-140): the admission step, then
the scheduling policy. -/
def loopIteration (algorithm timeQuantum : Int) (s : Sched)
    (pending : List Descriptor) (now forkPid : Int) :
    Option (Sched × List Descriptor) :=
  match admission s pending now with
  | none => none
  | some (s1, rest) =>
    match schedule algorithm timeQuantum s1 now forkPid with
    | none => none
    | some s2 => some (s2, rest)

/-! ## The workers, as the operating system sees them -/

/-- The termination of worker `p`, recorded in the OS trace; the handler
`handleProcessCompletion` runs on the resulting state. -/
def workerExit (s : Sched) (p : Int) : Sched :=
  { s with os := s.os ++ [OsEvent.exited p] }

/-- What a spawned worker is doing. -/
inductive WStatus where
  | running
  | stopped
  | terminated
deriving DecidableEq, Repr

/-- The effect of one OS event on worker `p`: a successful `fork` returning `p`
starts it, `SIGSTOP` pauses it while it runs, `SIGCONT` lets it run again while
it is paused, its exit terminates it.  Signals have no effect on a worker that
does not exist or has terminated. -/
def osStep (p : Int) (cur : Option WStatus) : OsEvent → Option WStatus
  | OsEvent.fork q _ => if q = p ∧ 0 < q then some WStatus.running else cur
  | OsEvent.kill q Signal.SIGSTOP =>
    if q = p ∧ cur = some WStatus.running then some WStatus.stopped else cur
  | OsEvent.kill q Signal.SIGCONT =>
    if q = p ∧ cur = some WStatus.stopped then some WStatus.running else cur
  | OsEvent.exited q => if q = p then some WStatus.terminated else cur

/-- The status of worker `p` after the OS trace `os`; `none` when no worker with
pid `p` was ever spawned. -/
def workerStatus (os : List OsEvent) (p : Int) : Option WStatus :=
  os.foldl (osStep p) none

/-- Worker `p` occupies the CPU: it was spawned and is neither paused nor
terminated. -/
def isRunning (os : List OsEvent) (p : Int) : Prop :=
  workerStatus os p = some WStatus.running

instance (os : List OsEvent) (p : Int) : Decidable (isRunning os p) := by
  unfold isRunning; infer_instance

/-- The states of the scheduler running policy `algorithm`, from the initial
state on: a message is received, the policy is run (`fork` returning a child pid
or `-1`), or a worker terminates and the handler runs for it. -/
inductive Reachable (algorithm timeQuantum : Int) : Sched → Prop where
  | init : Reachable algorithm timeQuantum Sched.init
  | receive {s s1 : Sched} (d : Descriptor) (rest : List Descriptor) (now : Int) :
      Reachable algorithm timeQuantum s →
      admission s (d :: rest) now = some (s1, rest) →
      Reachable algorithm timeQuantum s1
  | tick {s s1 : Sched} (now forkPid : Int) :
      Reachable algorithm timeQuantum s →
      (forkPid = -1 ∨ 0 < forkPid) →
      schedule algorithm timeQuantum s now forkPid = some s1 →
      Reachable algorithm timeQuantum s1
  | completion {s : Sched} (p now : Int) :
      Reachable algorithm timeQuantum s → 0 < p →
      Reachable algorithm timeQuantum (handleProcessCompletion (workerExit s p) p now)

/-! ## A closed simulation: generator, scheduler and workers on one clock -/

/-- A live worker: its pid and the simulated time it still has to run.  It is
started with the argument passed to `process.out` and terminates once it has
run, un-paused, for that long. -/
structure Worker where
  pid : Int
  left : Int
deriving DecidableEq, Repr

/-- The whole system at a clock value: the scheduler, the workload the
generator has not sent yet, the channel, the live workers and the next pid
`fork` hands out. -/
structure World where
  sched : Sched
  workload : List Descriptor
  channel : List Descriptor
  workers : List Worker
  nextPid : Int
  clock : Int
deriving DecidableEq, Repr

/-- The handler runs, at clock value `now`, for every worker whose time is up. -/
def reapAll (now : Int) : List Worker → Sched → Sched
  | [], s => s
  | w :: ws, s =>
    if w.left ≤ 0 then
      reapAll now ws (handleProcessCompletion (workerExit s w.pid) w.pid now)
    else reapAll now ws s

/-- The workers spawned by the OS events `es`. -/
def spawned : List OsEvent → List Worker
  | [] => []
  | OsEvent.fork p arg :: es =>
    if 0 < p then { pid := p, left := arg } :: spawned es else spawned es
  | _ :: es => spawned es

/-- One time unit of the system.  The generator sends the descriptors that have
arrived (the inner loop of `process_generator.c`), the handler runs for the
workers that are done, the scheduler runs one loop iteration, and the worker
that is running uses up one unit of its time. -/
def World.step (algorithm timeQuantum : Int) (w : World) : Option World :=
  let arrived := w.workload.takeWhile (fun d => d.arrivalTime ≤ w.clock)
  let later := w.workload.dropWhile (fun d => d.arrivalTime ≤ w.clock)
  let s1 := reapAll w.clock w.workers w.sched
  let alive := w.workers.filter (fun x => 0 < x.left)
  match loopIteration algorithm timeQuantum s1 (w.channel ++ arrived) w.clock w.nextPid with
  | none => none
  | some (s2, rest) =>
    let fresh := spawned (s2.os.drop s1.os.length)
    some
      { sched := s2
        workload := later
        channel := rest
        workers := (alive ++ fresh).map (fun x =>
          if isRunning s2.os x.pid then { x with left := x.left - 1 } else x)
        nextPid := if fresh = [] then w.nextPid else w.nextPid + 1
        clock := w.clock + 1 }

/-- The system after `n` time units. -/
def World.run (algorithm timeQuantum : Int) : Nat → World → Option World
  | 0, w => some w
  | n + 1, w =>
    match World.step algorithm timeQuantum w with
    | none => none
    | some w1 => World.run algorithm timeQuantum n w1

/-- The system at clock value 0 with nothing admitted yet; worker pids are
handed out from 100 on. -/
def World.start (workload : List Descriptor) : World :=
  { sched := Sched.init, workload := workload, channel := [], workers := [],
    nextPid := 100, clock := 0 }

/-! ## Predicates used in the statements -/

/-- Index `i` holds the first PCB of minimum `key` among the PCBs of `q` with
`remainingTime > 0`: it is one of them, no such PCB has a smaller key, and
every such PCB before it has a strictly larger key. -/
def IsFirstMin (key : PCB → Int) (q : List PCB) (i : Nat) : Prop :=
  i < q.length ∧ 0 < (q.getD i PCB.zero).remainingTime ∧
  (∀ j, j < q.length → 0 < (q.getD j PCB.zero).remainingTime →
    key (q.getD i PCB.zero) ≤ key (q.getD j PCB.zero)) ∧
  (∀ j, j < i → 0 < (q.getD j PCB.zero).remainingTime →
    key (q.getD i PCB.zero) < key (q.getD j PCB.zero))

/-- The loop invariant of `scanLoop` once the indices below `i` are visited. -/
def ScanInv (key : PCB → Int) (q : List PCB) (i : Nat) (best : Int) : Prop :=
  (best = -1 ∧ ∀ j, j < i → j < q.length → ¬ 0 < (q.getD j PCB.zero).remainingTime) ∨
  (∃ b : Nat, best = (b : Int) ∧ b < q.length ∧ 0 < (q.getD b PCB.zero).remainingTime ∧
    (∀ j, j < i → j < q.length → 0 < (q.getD j PCB.zero).remainingTime →
      key (q.getD b PCB.zero) ≤ key (q.getD j PCB.zero)) ∧
    (∀ j, j < b → 0 < (q.getD j PCB.zero).remainingTime →
      key (q.getD b PCB.zero) < key (q.getD j PCB.zero)))

/-! ## Concrete states and inputs used to run the statements -/

/-- Three admitted processes, none dispatched yet. -/
def sjfExample : Sched :=
  { Sched.init with
      readyQueue := [newProcess ⟨1, 0, 4, 2⟩, newProcess ⟨2, 0, 3, 7⟩, newProcess ⟨3, 1, 3, 1⟩] }

/-- Two processes of equal length, admitted at clock value 0. -/
def twoAdmitted : Sched :=
  { Sched.init with
      readyQueue := [newProcess ⟨1, 0, 4, 3⟩, newProcess ⟨2, 0, 4, 3⟩]
      totalProcesses := 2 }

/-- Round-Robin after its first tick on `twoAdmitted`: the head runs as worker
100 since clock value 0. -/
def rrExample : Sched := scheduleRR twoAdmitted 0 2 100

/-- Shortest-Job-First after its first tick on `sjfExample`: the PCB at index 1
runs as worker 100. -/
def sjfRunning : Sched := scheduleSJF sjfExample 7 100

/-- The descriptor `{id=1, arrival=0, runtime=5, priority=5}`. -/
def descriptor1 : Descriptor := { id := 1, arrivalTime := 0, runtime := 5, priority := 5 }

/-- The descriptor `{id=2, arrival=2, runtime=3, priority=1}`. -/
def descriptor2 : Descriptor := { id := 2, arrivalTime := 2, runtime := 3, priority := 1 }

/-- One process admitted at clock value 0, nothing dispatched. -/
def oneAdmitted : Sched :=
  { Sched.init with
      readyQueue := [newProcess descriptor1]
      totalProcesses := 1
      log := [LogEvent.added 0 1] }

/-- Process 1 runs as worker 100 under the priority policy, process 2 has just
been admitted. -/
def phpfExample : Sched :=
  { (schedulePHPF oneAdmitted 0 100) with
      readyQueue := (schedulePHPF oneAdmitted 0 100).readyQueue ++ [newProcess descriptor2]
      totalProcesses := 2 }

/-- A short run under policy `algorithm` (quantum 5): the process
`{id=1, arrival=0, runtime=2, priority=1}` is admitted and dispatched as worker
100 at clock value 0, the worker terminates and the handler runs at clock value
2, and the policy runs again at clock value 2. -/
def finishedRun (algorithm : Int) : Option Sched :=
  match admission Sched.init [{ id := 1, arrivalTime := 0, runtime := 2, priority := 1 }] 0 with
  | none => none
  | some (s1, _) =>
    match schedule algorithm 5 s1 0 100 with
    | none => none
    | some s2 =>
      schedule algorithm 5 (handleProcessCompletion (workerExit s2 100) 100 2) 2 101

/-! ## The invariant of the reachable states -/

/-- A worker that was spawned and has not terminated. -/
def Live (st : Option WStatus) : Prop :=
  st = some WStatus.running ∨ st = some WStatus.stopped

/-- The invariant kept by every step of the scheduler: a worker that occupies
the CPU is the one in `runningProcessPid`; a non-empty running slot points at a
PCB of the queue that carries that pid; and a PCB whose `endTime` is set has
`waitingTime = (endTime - arrivalTime) - runtime`. -/
structure Inv (s : Sched) : Prop where
  slot : ∀ p, isRunning s.os p → p = s.runningProcessPid
  index : s.runningProcessPid ≠ -1 →
    ∃ k : Nat, s.currentProcessIndex = (k : Int) ∧ k < s.readyQueue.length ∧
      (s.readyQueue.getD k PCB.zero).pid = s.runningProcessPid
  metrics : ∀ P ∈ s.readyQueue, P.endTime ≠ -1 →
    P.waitingTime = (P.endTime - P.arrivalTime) - P.runtime


/-! ## The selection loop -/

theorem readAt_natCast (q : List PCB) (b : Nat) :
    readAt q (b : Int) = q.getD b PCB.zero := by
  simp [readAt]

theorem writeAt_natCast (q : List PCB) (b : Nat) (v : PCB) :
    writeAt q (b : Int) v = q.set b v := by
  simp [writeAt]

theorem drop_cons_inv {q rest : List PCB} {p : PCB} {i : Nat}
    (h : q.drop i = p :: rest) :
    i < q.length ∧ q.getD i PCB.zero = p ∧ q.drop (i + 1) = rest := by
  have hlt : i < q.length := by
    by_contra hge
    rw [List.drop_eq_nil_of_le (Nat.le_of_not_lt hge)] at h
    exact absurd h (by simp)
  rw [List.drop_eq_getElem_cons hlt] at h
  have h1 : q[i] = p := (List.cons.inj h).1
  have h2 : q.drop (i + 1) = rest := (List.cons.inj h).2
  refine ⟨hlt, ?_, h2⟩
  rw [List.getD_eq_getElem q PCB.zero hlt, h1]

theorem scanInv_step (key : PCB → Int) (q : List PCB) (i : Nat) (best : Int)
    (hi : i < q.length) (hinv : ScanInv key q i best) :
    ScanInv key q (i + 1)
      (if (q.getD i PCB.zero).remainingTime > 0 then
        (if best = -1 ∨ key (q.getD i PCB.zero) < key (readAt q best) then (i : Int)
         else best)
      else best) := by
  by_cases hrem : (q.getD i PCB.zero).remainingTime > 0
  · rw [if_pos hrem]
    rcases hinv with ⟨hb, hnone⟩ | ⟨b, hb, hblt, hbrem, hmin, hfirst⟩
    · rw [if_pos (Or.inl hb)]
      refine Or.inr ⟨i, rfl, hi, hrem, ?_, ?_⟩
      · intro j hj hjl hjr
        rcases Nat.lt_succ_iff_lt_or_eq.mp hj with h | h
        · exact absurd hjr (hnone j h hjl)
        · rw [h]
      · intro j hj hjr
        exact absurd hjr (hnone j hj (lt_trans hj hi))
    · have hne : ¬ best = -1 := by rw [hb]; omega
      rw [hb, readAt_natCast]
      by_cases hlt : key (q.getD i PCB.zero) < key (q.getD b PCB.zero)
      · rw [if_pos (Or.inr hlt)]
        refine Or.inr ⟨i, rfl, hi, hrem, ?_, ?_⟩
        · intro j hj hjl hjr
          rcases Nat.lt_succ_iff_lt_or_eq.mp hj with h | h
          · exact le_of_lt (lt_of_lt_of_le hlt (hmin j h hjl hjr))
          · rw [h]
        · intro j hj hjr
          exact lt_of_lt_of_le hlt (hmin j hj (lt_trans hj hi) hjr)
      · have hcond : ¬ ((b : Int) = -1 ∨ key (q.getD i PCB.zero) < key (q.getD b PCB.zero)) := by
          intro h
          rcases h with h | h
          · omega
          · exact hlt h
        rw [if_neg hcond]
        refine Or.inr ⟨b, rfl, hblt, hbrem, ?_, hfirst⟩
        intro j hj hjl hjr
        rcases Nat.lt_succ_iff_lt_or_eq.mp hj with h | h
        · exact hmin j h hjl hjr
        · rw [h]; exact not_lt.mp hlt
  · rw [if_neg hrem]
    rcases hinv with ⟨hb, hnone⟩ | ⟨b, hb, hblt, hbrem, hmin, hfirst⟩
    · refine Or.inl ⟨hb, ?_⟩
      intro j hj hjl
      rcases Nat.lt_succ_iff_lt_or_eq.mp hj with h | h
      · exact hnone j h hjl
      · rw [h]; exact hrem
    · refine Or.inr ⟨b, hb, hblt, hbrem, ?_, hfirst⟩
      intro j hj hjl hjr
      rcases Nat.lt_succ_iff_lt_or_eq.mp hj with h | h
      · exact hmin j h hjl hjr
      · rw [h] at hjr; exact absurd hjr hrem

theorem scanLoop_inv (key : PCB → Int) (q : List PCB) :
    ∀ (rest : List PCB) (i : Nat) (best : Int), q.drop i = rest →
      ScanInv key q i best → ScanInv key q q.length (scanLoop key q rest i best) := by
  intro rest
  induction rest with
  | nil =>
    intro i best hdrop hinv
    have hle : q.length ≤ i := List.drop_eq_nil_iff.mp hdrop
    simp only [scanLoop]
    rcases hinv with ⟨hb, hnone⟩ | ⟨b, hb, hblt, hbrem, hmin, hfirst⟩
    · exact Or.inl ⟨hb, fun j hj hjl => hnone j (lt_of_lt_of_le hj hle) hjl⟩
    · exact Or.inr ⟨b, hb, hblt, hbrem,
        fun j hj hjl hjr => hmin j (lt_of_lt_of_le hj hle) hjl hjr, hfirst⟩
  | cons p rest ih =>
    intro i best hdrop hinv
    obtain ⟨hi, hp, hrest⟩ := drop_cons_inv hdrop
    simp only [scanLoop]
    apply ih (i + 1) _ hrest
    have := scanInv_step key q i best hi hinv
    rw [hp] at this
    exact this

/-- The index variable after the loop: `-1` when no PCB has `remainingTime > 0`,
and otherwise the index of the first PCB of minimum key among those. -/
theorem scanLoop_spec (key : PCB → Int) (q : List PCB) :
    (scanLoop key q q 0 (-1) = -1 ∧ ∀ p ∈ q, ¬ 0 < p.remainingTime) ∨
    (∃ b : Nat, scanLoop key q q 0 (-1) = (b : Int) ∧ IsFirstMin key q b) := by
  have h := scanLoop_inv key q q 0 (-1) (by simp)
    (Or.inl ⟨rfl, fun j hj => absurd hj (Nat.not_lt_zero j)⟩)
  rcases h with ⟨hb, hnone⟩ | ⟨b, hb, hblt, hbrem, hmin, hfirst⟩
  · refine Or.inl ⟨hb, ?_⟩
    intro p hp
    obtain ⟨j, hj, hjp⟩ := List.getElem_of_mem hp
    have := hnone j hj hj
    rw [List.getD_eq_getElem q PCB.zero hj, hjp] at this
    exact this
  · exact Or.inr ⟨b, hb, hblt, hbrem, fun j hjl hjr => hmin j hjl hjl hjr, hfirst⟩

theorem isFirstMin_unique {key : PCB → Int} {q : List PCB} {i j : Nat}
    (hi : IsFirstMin key q i) (hj : IsFirstMin key q j) : i = j := by
  obtain ⟨hil, hir, himin, hifirst⟩ := hi
  obtain ⟨hjl, hjr, hjmin, hjfirst⟩ := hj
  rcases Nat.lt_trichotomy i j with h | h | h
  · exact absurd (hjfirst i h hir) (not_lt.mpr (himin j hjl hjr))
  · exact h
  · exact absurd (hifirst j h hjr) (not_lt.mpr (hjmin i hil hir))

theorem isFirstMin_remaining {key : PCB → Int} {q : List PCB} {i : Nat}
    (hi : IsFirstMin key q i) : ∃ p ∈ q, 0 < p.remainingTime := by
  obtain ⟨hil, hir, _, _⟩ := hi
  rw [List.getD_eq_getElem q PCB.zero hil] at hir
  exact ⟨q[i], List.getElem_mem hil, hir⟩

theorem shortestIndex_of_firstMin {q : List PCB} {i : Nat}
    (hi : IsFirstMin PCB.remainingTime q i) : shortestIndex q = (i : Int) := by
  rcases scanLoop_spec PCB.remainingTime q with ⟨_, hnone⟩ | ⟨b, hb, hbmin⟩
  · obtain ⟨p, hp, hpos⟩ := isFirstMin_remaining hi
    exact absurd hpos (hnone p hp)
  · rw [shortestIndex, hb, isFirstMin_unique hbmin hi]

theorem highestPriorityIndex_of_firstMin {q : List PCB} {i : Nat}
    (hi : IsFirstMin PCB.priority q i) : highestPriorityIndex q = (i : Int) := by
  rcases scanLoop_spec PCB.priority q with ⟨_, hnone⟩ | ⟨b, hb, hbmin⟩
  · obtain ⟨p, hp, hpos⟩ := isFirstMin_remaining hi
    exact absurd hpos (hnone p hp)
  · rw [highestPriorityIndex, hb, isFirstMin_unique hbmin hi]

theorem exists_firstMin (key : PCB → Int) {q : List PCB}
    (h : ∃ p ∈ q, 0 < p.remainingTime) : ∃ i, IsFirstMin key q i := by
  rcases scanLoop_spec key q with ⟨_, hnone⟩ | ⟨b, _, hbmin⟩
  · obtain ⟨p, hp, hpos⟩ := h
    exact absurd hpos (hnone p hp)
  · exact ⟨b, hbmin⟩

/-- C2: with an empty running slot, `scheduleSJF` dispatches the PCB at the
first index of minimum `remainingTime` among the PCBs with `remainingTime > 0`
(it gets the pid returned by `fork`, `started` and `startTime`; the index
becomes `currentProcessIndex`), and when no PCB has `remainingTime > 0`, the
empty queue included, it changes nothing. -/
theorem scheduleSJF_selection (s : Sched) (now forkPid : Int)
    (hidle : s.runningProcessPid = -1) :
    ((∃ p ∈ s.readyQueue, 0 < p.remainingTime) →
      ∃ i : Nat, IsFirstMin PCB.remainingTime s.readyQueue i ∧
        scheduleSJF s now forkPid =
          { s with
              readyQueue := s.readyQueue.set i
                { s.readyQueue.getD i PCB.zero with
                    pid := forkPid, started := true, startTime := now }
              runningProcessPid := forkPid
              currentProcessIndex := (i : Int)
              cpuBusyTime := s.cpuBusyTime + (s.readyQueue.getD i PCB.zero).runtime
              log := s.log ++ [LogEvent.started now (s.readyQueue.getD i PCB.zero).id
                (s.readyQueue.getD i PCB.zero).arrivalTime
                (s.readyQueue.getD i PCB.zero).runtime
                (s.readyQueue.getD i PCB.zero).remainingTime
                (s.readyQueue.getD i PCB.zero).waitingTime]
              os := s.os ++
                [OsEvent.fork forkPid (s.readyQueue.getD i PCB.zero).remainingTime] }) ∧
    ((∀ p ∈ s.readyQueue, ¬ 0 < p.remainingTime) → scheduleSJF s now forkPid = s) := by
  constructor
  · intro h
    obtain ⟨i, hi⟩ := exists_firstMin PCB.remainingTime h
    refine ⟨i, hi, ?_⟩
    have hk := shortestIndex_of_firstMin hi
    have hne : ¬ ((i : Int) = -1) := by omega
    simp only [scheduleSJF, hidle, hk, readAt_natCast, writeAt_natCast]
    simp [hne]
  · intro h
    have hk : shortestIndex s.readyQueue = -1 := by
      rcases scanLoop_spec PCB.remainingTime s.readyQueue with ⟨hb, _⟩ | ⟨b, _, hbmin⟩
      · exact hb
      · obtain ⟨p, hp, hpos⟩ := isFirstMin_remaining hbmin
        exact absurd hpos (h p hp)
    simp [scheduleSJF, hk]

/-- C3: let `A` be the running PCB (index `a`) and `W` the first PCB of minimum
priority value among the PCBs with `remainingTime > 0` (index `w`).  When
`W.priority < A.priority`, one call of `schedulePHPF` sends `SIGSTOP` to the
running worker, leaves the PCB `A` as it is, spawns `W` when it has no pid and
sends it `SIGCONT` otherwise, and makes `W` the running process; when
`A.priority ≤ W.priority` it returns the state unchanged. -/
theorem schedulePHPF_preemption (s : Sched) (now forkPid : Int) (a w : Nat)
    (hrun : s.runningProcessPid ≠ -1) (ha : s.currentProcessIndex = (a : Int))
    (hw : IsFirstMin PCB.priority s.readyQueue w) :
    ((s.readyQueue.getD w PCB.zero).priority < (s.readyQueue.getD a PCB.zero).priority →
      schedulePHPF s now forkPid =
        (if (s.readyQueue.getD w PCB.zero).pid = -1 then
          { s with
              readyQueue := s.readyQueue.set w
                { s.readyQueue.getD w PCB.zero with pid := forkPid, startTime := now }
              runningProcessPid := forkPid
              currentProcessIndex := (w : Int)
              os := s.os ++ [OsEvent.kill s.runningProcessPid Signal.SIGSTOP,
                OsEvent.fork forkPid (s.readyQueue.getD w PCB.zero).remainingTime]
              log := s.log ++ [LogEvent.stopped now (s.readyQueue.getD a PCB.zero).id,
                LogEvent.started now (s.readyQueue.getD w PCB.zero).id
                  (s.readyQueue.getD w PCB.zero).arrivalTime
                  (s.readyQueue.getD w PCB.zero).runtime
                  (s.readyQueue.getD w PCB.zero).remainingTime
                  (s.readyQueue.getD w PCB.zero).waitingTime] }
        else
          { s with
              runningProcessPid := (s.readyQueue.getD w PCB.zero).pid
              currentProcessIndex := (w : Int)
              os := s.os ++ [OsEvent.kill s.runningProcessPid Signal.SIGSTOP,
                OsEvent.kill (s.readyQueue.getD w PCB.zero).pid Signal.SIGCONT]
              log := s.log ++ [LogEvent.stopped now (s.readyQueue.getD a PCB.zero).id,
                LogEvent.resumed now (s.readyQueue.getD w PCB.zero).id
                  (s.readyQueue.getD w PCB.zero).arrivalTime
                  (s.readyQueue.getD w PCB.zero).runtime
                  (s.readyQueue.getD w PCB.zero).remainingTime
                  (s.readyQueue.getD w PCB.zero).waitingTime] }) ∧
      (schedulePHPF s now forkPid).readyQueue.getD a PCB.zero =
        s.readyQueue.getD a PCB.zero) ∧
    ((s.readyQueue.getD a PCB.zero).priority ≤ (s.readyQueue.getD w PCB.zero).priority →
      schedulePHPF s now forkPid = s) := by
  have hk := highestPriorityIndex_of_firstMin hw
  have hne : ¬ ((w : Int) = -1) := by omega
  have hwl : w < s.readyQueue.length := hw.1
  constructor
  · intro hlt
    have hwa : w ≠ a := by
      intro h; rw [h] at hlt; exact lt_irrefl _ hlt
    have hc1 : s.runningProcessPid = -1 ∨
        (s.readyQueue.getD w PCB.zero).priority < (s.readyQueue.getD a PCB.zero).priority :=
      Or.inr hlt
    have hc2 : s.runningProcessPid ≠ -1 ∧
        (s.readyQueue.getD w PCB.zero).priority < (s.readyQueue.getD a PCB.zero).priority :=
      ⟨hrun, hlt⟩
    by_cases hpid : (s.readyQueue.getD w PCB.zero).pid = -1
    · have hset : ∀ v : PCB, (s.readyQueue.set w v).getD w PCB.zero = v := by
        intro v
        rw [List.getD_eq_getElem _ PCB.zero (by rw [List.length_set]; exact hwl)]
        simp
      rw [if_pos hpid]
      constructor
      · simp only [schedulePHPF, phpfPause, phpfStart, hk, ha, readAt_natCast, writeAt_natCast,
          if_neg hne, if_pos hc1, if_pos hc2, if_pos hpid, hset, List.append_assoc,
          List.singleton_append]
      · simp only [schedulePHPF, phpfPause, phpfStart, hk, ha, readAt_natCast, writeAt_natCast,
          if_neg hne, if_pos hc1, if_pos hc2, if_pos hpid]
        simp only [List.getD_eq_getElem?_getD, List.getElem?_set_ne hwa]
    · rw [if_neg hpid]
      constructor
      · simp only [schedulePHPF, phpfPause, phpfStart, hk, ha, readAt_natCast, writeAt_natCast,
          if_neg hne, if_pos hc1, if_pos hc2, if_neg hpid, List.append_assoc,
          List.singleton_append]
      · simp only [schedulePHPF, phpfPause, phpfStart, hk, ha, readAt_natCast, writeAt_natCast,
          if_neg hne, if_pos hc1, if_pos hc2, if_neg hpid]
  · intro hge
    have hc : ¬ (s.runningProcessPid = -1 ∨
        (s.readyQueue.getD w PCB.zero).priority < (s.readyQueue.getD a PCB.zero).priority) := by
      intro h
      rcases h with h | h
      · exact hrun h
      · exact absurd h (not_lt.mpr hge)
    simp only [schedulePHPF, hk, ha, readAt_natCast, if_neg hne, if_neg hc]
theorem shiftLoop_length : ∀ (n i : Nat) (q : List PCB), (shiftLoop n i q).length = q.length := by
  intro n
  induction n with
  | zero => intro i q; rfl
  | succ n ih => intro i q; simp only [shiftLoop]; rw [ih, List.length_set]

theorem shiftLoop_getElem? : ∀ (n i : Nat) (q : List PCB) (j : Nat), i + n < q.length →
    (shiftLoop n i q)[j]? = if i ≤ j ∧ j < i + n then q[j + 1]? else q[j]? := by
  intro n
  induction n with
  | zero =>
    intro i q j _
    have : ¬ (i ≤ j ∧ j < i + 0) := by omega
    simp only [shiftLoop, if_neg this]
  | succ n ih =>
    intro i q j h
    have hi1 : i + 1 < q.length := by omega
    simp only [shiftLoop]
    rw [ih (i + 1) _ j (by rw [List.length_set]; omega)]
    rw [List.getD_eq_getElem q PCB.zero hi1]
    by_cases hc : i + 1 ≤ j ∧ j < i + 1 + n
    · have hc2 : i ≤ j ∧ j < i + (n + 1) := by omega
      rw [if_pos hc, if_pos hc2, List.getElem?_set_ne (by omega)]
    · rw [if_neg hc]
      by_cases hji : j = i
      · have hc2 : i ≤ j ∧ j < i + (n + 1) := by omega
        rw [if_pos hc2, hji, List.getElem?_set_self (by omega), List.getElem?_eq_getElem hi1]
      · have hc2 : ¬ (i ≤ j ∧ j < i + (n + 1)) := by omega
        rw [if_neg hc2, List.getElem?_set_ne (by omega)]

/-- The rotation of `scheduleRR` removes the PCB at a valid index and appends
it behind the others. -/
theorem moveToTail_eq (q : List PCB) (k : Nat) (hk : k < q.length) :
    moveToTail q (k : Int) = q.eraseIdx k ++ [q.getD k PCB.zero] := by
  have hlen : ((q.length : Int) - 1) = ((q.length - 1 : Nat) : Int) := by omega
  simp only [moveToTail, readAt_natCast, Int.toNat_ofNat, hlen, writeAt_natCast]
  apply List.ext_getElem?
  intro j
  rw [List.getElem?_set, shiftLoop_length, shiftLoop_getElem? _ _ _ _ (by omega)]
  rw [List.getD_eq_getElem q PCB.zero hk]
  by_cases hj : j < q.length - 1
  · rw [List.getElem?_append_left (by rw [List.length_eraseIdx]; simp [hk]; omega)]
    rw [List.getElem?_eraseIdx]
    have h1 : ¬ (q.length - 1 = j) := by omega
    rw [if_neg h1]
    by_cases hjk : j < k
    · rw [if_pos hjk, if_neg (by omega)]
    · rw [if_neg hjk, if_pos (by omega)]
  · by_cases hj2 : j = q.length - 1
    · rw [if_pos hj2.symm, if_pos (by omega)]
      rw [List.getElem?_append_right (by rw [List.length_eraseIdx]; simp [hk]; omega)]
      rw [List.length_eraseIdx]; simp [hk, hj2]
    · rw [if_neg (by omega), if_neg (by omega)]
      rw [List.getElem?_eq_none (by omega), List.getElem?_eq_none]
      rw [List.length_append, List.length_eraseIdx]; simp [hk]; omega

/-- C4: `scheduleRR` is its quantum step followed by the head dispatch.  With a
running PCB at index `k`, the quantum step clears the running slot exactly when
`now - lastExecutionTime ≥ timeQuantum`, and then it has sent `SIGSTOP` to the
running worker and moved that PCB behind all others; when
`now - lastExecutionTime < timeQuantum` the quantum step and the whole call
return the state unchanged. -/
theorem scheduleRR_quantum (s : Sched) (now timeQuantum forkPid : Int) (k : Nat)
    (hrun : s.runningProcessPid ≠ -1) (hk : s.currentProcessIndex = (k : Int))
    (hkl : k < s.readyQueue.length) :
    scheduleRR s now timeQuantum forkPid =
      rrDispatch (rrPreempt s now timeQuantum) now forkPid ∧
    ((rrPreempt s now timeQuantum).runningProcessPid = -1 ↔
      now - s.lastExecutionTime ≥ timeQuantum) ∧
    (now - s.lastExecutionTime ≥ timeQuantum →
      rrPreempt s now timeQuantum =
        { s with
            os := s.os ++ [OsEvent.kill s.runningProcessPid Signal.SIGSTOP]
            log := s.log ++ [LogEvent.stopped now (s.readyQueue.getD k PCB.zero).id]
            readyQueue := s.readyQueue.eraseIdx k ++ [s.readyQueue.getD k PCB.zero]
            runningProcessPid := -1
            currentProcessIndex := -1 }) ∧
    (now - s.lastExecutionTime < timeQuantum →
      rrPreempt s now timeQuantum = s ∧ scheduleRR s now timeQuantum forkPid = s) := by
  have hkeep : ¬ (now - s.lastExecutionTime ≥ timeQuantum) → rrPreempt s now timeQuantum = s := by
    intro hq
    simp only [rrPreempt, if_pos hrun, if_neg hq]
  refine ⟨rfl, ⟨?_, ?_⟩, ?_, ?_⟩
  · intro h
    by_contra hq
    rw [hkeep hq] at h
    exact hrun h
  · intro hq
    simp only [rrPreempt, if_pos hrun, if_pos hq]
  · intro hq
    simp only [rrPreempt, if_pos hrun, if_pos hq, hk, moveToTail_eq _ _ hkl, readAt_natCast]
  · intro hq
    have hs := hkeep (not_le.mpr hq)
    have hd : ¬ (s.runningProcessPid = -1 ∧ s.readyQueue.length > 0) := fun h => hrun h.1
    refine ⟨hs, ?_⟩
    simp only [scheduleRR, hs, rrDispatch, if_neg hd]

theorem handleProcessCompletion_running (s : Sched) (p now : Int) (k : Nat)
    (hp : 0 < p) (hrun : s.runningProcessPid = p)
    (hk : s.currentProcessIndex = (k : Int)) :
    handleProcessCompletion s p now =
      { s with
          readyQueue := s.readyQueue.set k
            { s.readyQueue.getD k PCB.zero with
                endTime := now
                waitingTime := (now - (s.readyQueue.getD k PCB.zero).arrivalTime) -
                  (s.readyQueue.getD k PCB.zero).runtime }
          runningProcessPid := -1
          currentProcessIndex := -1
          log := s.log ++ [LogEvent.finished now (s.readyQueue.getD k PCB.zero).id
            (s.readyQueue.getD k PCB.zero).arrivalTime
            (s.readyQueue.getD k PCB.zero).runtime 0
            ((now - (s.readyQueue.getD k PCB.zero).arrivalTime) -
              (s.readyQueue.getD k PCB.zero).runtime)
            (now - (s.readyQueue.getD k PCB.zero).arrivalTime)] } := by
  have hgt : p > 0 := hp
  simp only [handleProcessCompletion, if_pos hgt, if_pos hrun, hk, readAt_natCast,
    writeAt_natCast]

theorem getD_set_self (q : List PCB) (k : Nat) (v : PCB) (hk : k < q.length) :
    (q.set k v).getD k PCB.zero = v := by
  rw [List.getD_eq_getElem _ PCB.zero (by rw [List.length_set]; exact hk)]
  simp

theorem getD_set_ne (q : List PCB) (k j : Nat) (v : PCB) (hjk : j ≠ k) :
    (q.set k v).getD j PCB.zero = q.getD j PCB.zero := by
  simp only [List.getD_eq_getElem?_getD, List.getElem?_set_ne (Ne.symm hjk)]

/-- C7: for a reaped pid `p > 0`, running `handleProcessCompletion` for `p` a
second time (at any clock value) returns the state the first run produced, log
included. -/
theorem handleProcessCompletion_idempotent (s : Sched) (p now later : Int) (hp : 0 < p) :
    handleProcessCompletion (handleProcessCompletion s p now) p later =
      handleProcessCompletion s p now := by
  have hgt : p > 0 := hp
  by_cases hrun : s.runningProcessPid = p
  · have hne : ¬ ((-1 : Int) = p) := by omega
    simp only [handleProcessCompletion, if_pos hgt, if_pos hrun, if_neg hne]
  · simp only [handleProcessCompletion, if_pos hgt, if_neg hrun]
/-! ## Runs on concrete inputs -/

/-- C1: under each policy a PCB that `handleProcessCompletion` has completed
(`endTime = 2`) keeps `remainingTime = 2` and is selected again by the next
tick: Shortest-Job-First spawns a second worker for it, the priority policy and
Round-Robin send `SIGCONT` to its terminated worker and put it back in the
running slot. -/
theorem finished_pcb_selected_again :
    finishedRun 1 = some
      { readyQueue := [{ id := 1, arrivalTime := 0, runtime := 2, remainingTime := 2,
                         priority := 1, waitingTime := 0, startTime := 2, endTime := 2,
                         pid := 101, started := true }]
        currentProcessIndex := 0
        runningProcessPid := 101
        totalProcesses := 1
        cpuBusyTime := 4
        lastExecutionTime := -1
        log := [LogEvent.added 0 1, LogEvent.started 0 1 0 2 2 0,
                LogEvent.finished 2 1 0 2 0 0 2, LogEvent.started 2 1 0 2 2 0]
        os := [OsEvent.fork 100 2, OsEvent.exited 100, OsEvent.fork 101 2] } ∧
    finishedRun 2 = some
      { readyQueue := [{ id := 1, arrivalTime := 0, runtime := 2, remainingTime := 2,
                         priority := 1, waitingTime := 0, startTime := 0, endTime := 2,
                         pid := 100, started := false }]
        currentProcessIndex := 0
        runningProcessPid := 100
        totalProcesses := 1
        cpuBusyTime := 0
        lastExecutionTime := -1
        log := [LogEvent.added 0 1, LogEvent.started 0 1 0 2 2 0,
                LogEvent.finished 2 1 0 2 0 0 2, LogEvent.resumed 2 1 0 2 2 0]
        os := [OsEvent.fork 100 2, OsEvent.exited 100,
               OsEvent.kill 100 Signal.SIGCONT] } ∧
    finishedRun 3 = some
      { readyQueue := [{ id := 1, arrivalTime := 0, runtime := 2, remainingTime := 2,
                         priority := 1, waitingTime := 0, startTime := 0, endTime := 2,
                         pid := 100, started := false }]
        currentProcessIndex := 0
        runningProcessPid := 100
        totalProcesses := 1
        cpuBusyTime := 0
        lastExecutionTime := 2
        log := [LogEvent.added 0 1, LogEvent.started 0 1 0 2 2 0,
                LogEvent.finished 2 1 0 2 0 0 2, LogEvent.resumed 2 1 0 2 2 0]
        os := [OsEvent.fork 100 2, OsEvent.exited 100,
               OsEvent.kill 100 Signal.SIGCONT] } := by
  refine ⟨?_, ?_, ?_⟩ <;> decide

/-- C5: the two-process scenario under the priority policy, nine time units
long.  Process 1 is started at 0 and stopped at 2, process 2 runs from 2 and
finishes at 5 with waiting time 0; the tick at 5 then selects the finished
process 2 again (`resumed 5 2`), so process 1 is never resumed: at clock value 9
its worker still has 3 units left, its `endTime` is `-1` and its `waitingTime`
is 0, not 3. -/
theorem phpf_scenario_run :
    World.run 2 0 9 (World.start [descriptor1, descriptor2]) = some
      { sched :=
          { readyQueue :=
              [{ id := 1, arrivalTime := 0, runtime := 5, remainingTime := 5, priority := 5,
                 waitingTime := 0, startTime := 0, endTime := -1, pid := 100,
                 started := false },
               { id := 2, arrivalTime := 2, runtime := 3, remainingTime := 3, priority := 1,
                 waitingTime := 0, startTime := 2, endTime := 5, pid := 101,
                 started := false }]
            currentProcessIndex := 1
            runningProcessPid := 101
            totalProcesses := 2
            cpuBusyTime := 0
            lastExecutionTime := -1
            log := [LogEvent.added 0 1, LogEvent.started 0 1 0 5 5 0, LogEvent.added 2 2,
                    LogEvent.stopped 2 1, LogEvent.started 2 2 2 3 3 0,
                    LogEvent.finished 5 2 2 3 0 0 3, LogEvent.resumed 5 2 2 3 3 0]
            os := [OsEvent.fork 100 5, OsEvent.kill 100 Signal.SIGSTOP, OsEvent.fork 101 3,
                   OsEvent.exited 101, OsEvent.kill 101 Signal.SIGCONT] }
        workload := []
        channel := []
        workers := [{ pid := 100, left := 3 }]
        nextPid := 102
        clock := 9 } := by
  decide

/-- C9: only `scheduleSJF` adds to `cpuBusyTime`.  `schedulePHPF` and
`scheduleRR` never change it, and on the one-process state they dispatch
process 1 (runtime 5) and leave `cpuBusyTime` at 0, where `scheduleSJF` makes
it 5. -/
theorem cpuBusyTime_only_under_sjf :
    (∀ (s : Sched) (now forkPid : Int),
      (schedulePHPF s now forkPid).cpuBusyTime = s.cpuBusyTime) ∧
    (∀ (s : Sched) (now timeQuantum forkPid : Int),
      (scheduleRR s now timeQuantum forkPid).cpuBusyTime = s.cpuBusyTime) ∧
    (schedulePHPF oneAdmitted 0 100).log =
      [LogEvent.added 0 1, LogEvent.started 0 1 0 5 5 0] ∧
    (schedulePHPF oneAdmitted 0 100).cpuBusyTime = 0 ∧
    (scheduleRR oneAdmitted 0 2 100).log =
      [LogEvent.added 0 1, LogEvent.started 0 1 0 5 5 0] ∧
    (scheduleRR oneAdmitted 0 2 100).cpuBusyTime = 0 ∧
    (scheduleSJF oneAdmitted 0 100).log =
      [LogEvent.added 0 1, LogEvent.started 0 1 0 5 5 0] ∧
    (scheduleSJF oneAdmitted 0 100).cpuBusyTime = 5 := by
  refine ⟨?_, ?_, by decide, by decide, by decide, by decide, by decide, by decide⟩
  · intro s now forkPid
    simp only [schedulePHPF, phpfStart, phpfPause]
    split_ifs <;> rfl
  · intro s now timeQuantum forkPid
    simp only [scheduleRR, rrDispatch, rrStart, rrPreempt]
    split_ifs <;> rfl

/-- C10, as stated, fails: with two descriptors pending, one loop iteration
admits only the first; the second stays on the channel, and `totalProcesses`
is 1, under each of the three policies. -/
theorem admission_all_pending_counterexample :
    admission Sched.init [descriptor1, descriptor2] 0 =
      some ({ Sched.init with
                readyQueue := [newProcess descriptor1]
                totalProcesses := 1
                log := [LogEvent.added 0 1] }, [descriptor2]) ∧
    (∃ s1, loopIteration 1 2 Sched.init [descriptor1, descriptor2] 0 100 =
        some (s1, [descriptor2]) ∧ s1.readyQueue.length = 1 ∧ s1.totalProcesses = 1) ∧
    (∃ s1, loopIteration 2 2 Sched.init [descriptor1, descriptor2] 0 100 =
        some (s1, [descriptor2]) ∧ s1.readyQueue.length = 1 ∧ s1.totalProcesses = 1) ∧
    (∃ s1, loopIteration 3 2 Sched.init [descriptor1, descriptor2] 0 100 =
        some (s1, [descriptor2]) ∧ s1.readyQueue.length = 1 ∧ s1.totalProcesses = 1) := by
  refine ⟨by decide, ?_, ?_, ?_⟩
  · exact ⟨_, rfl, by decide, by decide⟩
  · exact ⟨_, rfl, by decide, by decide⟩
  · exact ⟨_, rfl, by decide, by decide⟩

/-- C10, amended: one loop iteration receives at most one message.  With a
free slot in the array, the first pending descriptor becomes one new PCB at the
tail of the ready queue (`remainingTime = runtime`, `waitingTime = 0`,
`startTime = -1`, `endTime = -1`, `pid = -1`), `totalProcesses` grows by one,
the PCBs already queued are unchanged and the other descriptors stay pending;
with nothing pending the state is unchanged. -/
theorem admission_first_pending (s : Sched) (d : Descriptor) (rest : List Descriptor)
    (now : Int) (hcap : s.readyQueue.length < MAX_PROCESSES) :
    admission s (d :: rest) now =
      some ({ s with
                readyQueue := s.readyQueue ++
                  [{ id := d.id, arrivalTime := d.arrivalTime, runtime := d.runtime,
                     remainingTime := d.runtime, priority := d.priority, waitingTime := 0,
                     startTime := -1, endTime := -1, pid := -1, started := false }]
                totalProcesses := s.totalProcesses + 1
                log := s.log ++ [LogEvent.added now d.id] }, rest) ∧
    admission s [] now = some (s, []) := by
  simp only [admission, if_pos hcap, newProcess, and_self]

/-- `admission_first_pending` on the initial state with two descriptors pending. -/
theorem admission_first_pending_witness :
    Sched.init.readyQueue.length < MAX_PROCESSES ∧
    admission Sched.init [descriptor1, descriptor2] 7 =
      some ({ Sched.init with
                readyQueue := [{ id := 1, arrivalTime := 0, runtime := 5,
                                 remainingTime := 5, priority := 5, waitingTime := 0,
                                 startTime := -1, endTime := -1, pid := -1,
                                 started := false }]
                totalProcesses := 1
                log := [LogEvent.added 7 1] }, [descriptor2]) :=
  ⟨by decide, (admission_first_pending Sched.init descriptor1 [descriptor2] 7 (by decide)).1⟩
/-! ## Workers and the invariant -/

theorem workerStatus_append (os : List OsEvent) (e : OsEvent) (p : Int) :
    workerStatus (os ++ [e]) p = osStep p (workerStatus os p) e := by
  simp [workerStatus, List.foldl_append]

theorem osStep_live_pos (p : Int) (st : Option WStatus) (e : OsEvent)
    (h : Live st → 0 < p) : Live (osStep p st e) → 0 < p := by
  intro hl
  cases e with
  | fork q a =>
    simp only [osStep] at hl
    by_cases hc : q = p ∧ 0 < q
    · rw [← hc.1]; exact hc.2
    · rw [if_neg hc] at hl; exact h hl
  | kill q sig =>
    cases sig with
    | SIGSTOP =>
      simp only [osStep] at hl
      by_cases hc : q = p ∧ st = some WStatus.running
      · exact h (Or.inl hc.2)
      · rw [if_neg hc] at hl; exact h hl
    | SIGCONT =>
      simp only [osStep] at hl
      by_cases hc : q = p ∧ st = some WStatus.stopped
      · exact h (Or.inr hc.2)
      · rw [if_neg hc] at hl; exact h hl
  | exited q =>
    simp only [osStep] at hl
    by_cases hc : q = p
    · rw [if_pos hc] at hl
      rcases hl with hl | hl <;> exact absurd hl (by simp)
    · rw [if_neg hc] at hl; exact h hl

theorem foldl_live_pos (p : Int) :
    ∀ (os : List OsEvent) (st : Option WStatus), (Live st → 0 < p) →
      Live (os.foldl (osStep p) st) → 0 < p := by
  intro os
  induction os with
  | nil => intro st h hl; exact h hl
  | cons e os ih =>
    intro st h hl
    exact ih (osStep p st e) (osStep_live_pos p st e h) hl

/-- Only a positive pid names a running worker. -/
theorem isRunning_pos {os : List OsEvent} {p : Int} (h : isRunning os p) : 0 < p :=
  foldl_live_pos p os none
    (fun hl => by rcases hl with hl | hl <;> exact absurd hl (by simp)) (Or.inl h)

theorem isRunning_fork {os : List OsEvent} {f a x : Int}
    (h : isRunning (os ++ [OsEvent.fork f a]) x) : x = f ∨ isRunning os x := by
  unfold isRunning at h
  rw [workerStatus_append] at h
  simp only [osStep] at h
  by_cases hc : f = x ∧ 0 < f
  · exact Or.inl hc.1.symm
  · rw [if_neg hc] at h; exact Or.inr h

theorem isRunning_stop {os : List OsEvent} {r x : Int}
    (h : isRunning (os ++ [OsEvent.kill r Signal.SIGSTOP]) x) : x ≠ r ∧ isRunning os x := by
  unfold isRunning at h
  rw [workerStatus_append] at h
  simp only [osStep] at h
  by_cases hc : r = x ∧ workerStatus os x = some WStatus.running
  · rw [if_pos hc] at h; exact absurd h (by simp)
  · rw [if_neg hc] at h
    exact ⟨fun hx => hc ⟨hx.symm, h⟩, h⟩

theorem isRunning_cont {os : List OsEvent} {c x : Int}
    (h : isRunning (os ++ [OsEvent.kill c Signal.SIGCONT]) x) : x = c ∨ isRunning os x := by
  unfold isRunning at h
  rw [workerStatus_append] at h
  simp only [osStep] at h
  by_cases hc : c = x ∧ workerStatus os x = some WStatus.stopped
  · exact Or.inl hc.1.symm
  · rw [if_neg hc] at h; exact Or.inr h

theorem isRunning_exited {os : List OsEvent} {e x : Int}
    (h : isRunning (os ++ [OsEvent.exited e]) x) : x ≠ e ∧ isRunning os x := by
  unfold isRunning at h
  rw [workerStatus_append] at h
  simp only [osStep] at h
  by_cases hc : e = x
  · rw [if_pos hc] at h; exact absurd h (by simp)
  · rw [if_neg hc] at h
    exact ⟨fun hx => hc hx.symm, h⟩

/-- With an empty running slot no worker occupies the CPU. -/
theorem idle_of_slot {s : Sched} (hslot : ∀ p, isRunning s.os p → p = s.runningProcessPid)
    (hidle : s.runningProcessPid = -1) (x : Int) : ¬ isRunning s.os x := by
  intro h
  have h1 := hslot x h
  have h2 := isRunning_pos h
  omega

/-- After `SIGSTOP` to the worker in the running slot no worker occupies the CPU. -/
theorem idle_after_stop {s : Sched} (hslot : ∀ p, isRunning s.os p → p = s.runningProcessPid)
    (x : Int) : ¬ isRunning (s.os ++ [OsEvent.kill s.runningProcessPid Signal.SIGSTOP]) x := by
  intro h
  obtain ⟨h1, h2⟩ := isRunning_stop h
  exact h1 (hslot x h2)

theorem mem_set_cases {q : List PCB} {k : Nat} {v P : PCB} (h : P ∈ q.set k v) :
    P ∈ q ∨ P = v := List.mem_or_eq_of_mem_set h

theorem inv_init : Inv Sched.init where
  slot := by intro p h; exact absurd h (by simp [isRunning, workerStatus, Sched.init])
  index := by intro h; exact absurd rfl h
  metrics := by intro P h; exact absurd h (List.not_mem_nil P)

theorem inv_admission {s s1 : Sched} {pending rest : List Descriptor} {now : Int}
    (h : admission s pending now = some (s1, rest)) (hinv : Inv s) : Inv s1 := by
  cases pending with
  | nil =>
    simp only [admission, Option.some.injEq, Prod.mk.injEq] at h
    rw [← h.1]; exact hinv
  | cons d ds =>
    simp only [admission] at h
    by_cases hcap : s.readyQueue.length < MAX_PROCESSES
    · rw [if_pos hcap] at h
      simp only [Option.some.injEq, Prod.mk.injEq] at h
      rw [← h.1]
      refine ⟨hinv.slot, ?_, ?_⟩
      · intro hrun
        obtain ⟨k, hk, hkl, hpid⟩ := hinv.index hrun
        refine ⟨k, hk, ?_, ?_⟩
        · simp only [List.length_append, List.length_singleton]; omega
        · simp only [List.getD_eq_getElem?_getD, List.getElem?_append_left hkl]
          simpa only [List.getD_eq_getElem?_getD] using hpid
      · intro P hP
        simp only [List.mem_append, List.mem_singleton] at hP
        rcases hP with hP | hP
        · exact hinv.metrics P hP
        · intro hne; rw [hP] at hne; exact absurd rfl hne
    · rw [if_neg hcap] at h; exact absurd h (by simp)

theorem getD_mem (q : List PCB) (k : Nat) (hk : k < q.length) : q.getD k PCB.zero ∈ q := by
  rw [List.getD_eq_getElem q PCB.zero hk]
  exact List.getElem_mem hk

/-- A state produced by spawning the PCB at index `b` while no worker runs. -/
theorem inv_spawn {r : Sched} {os1 : List OsEvent} {q : List PCB} {b : Nat} {v : PCB}
    {f a : Int} (hidle : ∀ x, ¬ isRunning os1 x)
    (hm : ∀ P ∈ q, P.endTime ≠ -1 → P.waitingTime = (P.endTime - P.arrivalTime) - P.runtime)
    (hb : b < q.length) (hos : r.os = os1 ++ [OsEvent.fork f a])
    (hq : r.readyQueue = q.set b v) (hv : v.pid = f)
    (hvm : v.endTime ≠ -1 → v.waitingTime = (v.endTime - v.arrivalTime) - v.runtime)
    (hrun : r.runningProcessPid = f) (hidx : r.currentProcessIndex = (b : Int)) : Inv r where
  slot := by
    intro x hx
    rw [hos] at hx
    rcases isRunning_fork hx with h | h
    · rw [hrun]; exact h
    · exact absurd h (hidle x)
  index := by
    intro _
    refine ⟨b, hidx, ?_, ?_⟩
    · rw [hq, List.length_set]; exact hb
    · rw [hq, getD_set_self q b v hb, hv, hrun]
  metrics := by
    intro P hP
    rw [hq] at hP
    rcases mem_set_cases hP with h | h
    · exact hm P h
    · rw [h]; exact hvm

/-- A state produced by sending `SIGCONT` to the worker of the PCB at index `b`
while no worker runs. -/
theorem inv_resume {r : Sched} {os1 : List OsEvent} {b : Nat} {c : Int}
    (hidle : ∀ x, ¬ isRunning os1 x)
    (hm : ∀ P ∈ r.readyQueue,
      P.endTime ≠ -1 → P.waitingTime = (P.endTime - P.arrivalTime) - P.runtime)
    (hb : b < r.readyQueue.length) (hos : r.os = os1 ++ [OsEvent.kill c Signal.SIGCONT])
    (hc : (r.readyQueue.getD b PCB.zero).pid = c)
    (hrun : r.runningProcessPid = c) (hidx : r.currentProcessIndex = (b : Int)) : Inv r where
  slot := by
    intro x hx
    rw [hos] at hx
    rcases isRunning_cont hx with h | h
    · rw [hrun]; exact h
    · exact absurd h (hidle x)
  index := by
    intro _
    exact ⟨b, hidx, hb, by rw [hc, hrun]⟩
  metrics := hm

theorem inv_completion {s : Sched} (p now : Int) (hp : 0 < p) (hinv : Inv s) :
    Inv (handleProcessCompletion (workerExit s p) p now) := by
  by_cases hrun : s.runningProcessPid = p
  · have hne : s.runningProcessPid ≠ -1 := by omega
    obtain ⟨k, hk, hkl, _⟩ := hinv.index hne
    rw [handleProcessCompletion_running (workerExit s p) p now k hp hrun hk]
    refine ⟨?_, ?_, ?_⟩
    · intro x hx
      obtain ⟨h1, h2⟩ := isRunning_exited hx
      exact absurd ((hinv.slot x h2).trans hrun) h1
    · intro h; exact absurd rfl h
    · intro P hP
      rcases mem_set_cases hP with h | h
      · exact hinv.metrics P h
      · intro _; rw [h]
  · have hgt : p > 0 := hp
    have hrun2 : ¬ ((workerExit s p).runningProcessPid = p) := hrun
    simp only [handleProcessCompletion, if_pos hgt, if_neg hrun2]
    refine ⟨?_, hinv.index, hinv.metrics⟩
    intro x hx
    exact hinv.slot x (isRunning_exited hx).2

theorem inv_scheduleSJF {s : Sched} (now forkPid : Int) (hinv : Inv s) :
    Inv (scheduleSJF s now forkPid) := by
  by_cases hrun : s.runningProcessPid ≠ -1
  · simp only [scheduleSJF, if_pos hrun]; exact hinv
  · have hidle : s.runningProcessPid = -1 := not_not.mp hrun
    rcases scanLoop_spec PCB.remainingTime s.readyQueue with ⟨hk, _⟩ | ⟨b, hk, hb⟩
    · have hk2 : ¬ (shortestIndex s.readyQueue ≠ -1) := not_not.mpr hk
      simp only [scheduleSJF, if_neg hrun, if_neg hk2]; exact hinv
    · have hk1 : shortestIndex s.readyQueue = (b : Int) := hk
      have hk2 : (b : Int) ≠ -1 := by omega
      simp only [scheduleSJF, if_neg hrun, hk1, if_pos hk2, readAt_natCast, writeAt_natCast]
      exact inv_spawn (idle_of_slot hinv.slot hidle) hinv.metrics hb.1 rfl rfl rfl
        (fun h => hinv.metrics (s.readyQueue.getD b PCB.zero) (getD_mem _ _ hb.1) h) rfl rfl

theorem phpfPause_frame (s : Sched) (hp : PCB) (now : Int) :
    (phpfPause s hp now).readyQueue = s.readyQueue := by
  simp only [phpfPause]
  split_ifs <;> rfl

theorem phpfPause_idle {s : Sched} (hp : PCB) (now : Int) (hinv : Inv s)
    (hc : s.runningProcessPid = -1 ∨
      hp.priority < (readAt s.readyQueue s.currentProcessIndex).priority) (x : Int) :
    ¬ isRunning (phpfPause s hp now).os x := by
  by_cases hc2 : s.runningProcessPid ≠ -1 ∧
      hp.priority < (readAt s.readyQueue s.currentProcessIndex).priority
  · simp only [phpfPause, if_pos hc2]
    exact idle_after_stop hinv.slot x
  · simp only [phpfPause, if_neg hc2]
    have hidle : s.runningProcessPid = -1 := by
      rcases hc with h | h
      · exact h
      · by_contra hne; exact hc2 ⟨hne, h⟩
    exact idle_of_slot hinv.slot hidle x

theorem inv_schedulePHPF {s : Sched} (now forkPid : Int) (hinv : Inv s) :
    Inv (schedulePHPF s now forkPid) := by
  rcases scanLoop_spec PCB.priority s.readyQueue with ⟨hk, _⟩ | ⟨b, hk, hb⟩
  · have hk1 : highestPriorityIndex s.readyQueue = -1 := hk
    simp only [schedulePHPF, if_pos hk1]; exact hinv
  · have hk1 : highestPriorityIndex s.readyQueue = (b : Int) := hk
    have hk2 : ¬ ((b : Int) = -1) := by omega
    by_cases hc : s.runningProcessPid = -1 ∨
        (s.readyQueue.getD b PCB.zero).priority <
          (readAt s.readyQueue s.currentProcessIndex).priority
    · have hidle := phpfPause_idle (s.readyQueue.getD b PCB.zero) now hinv hc
      have hq := phpfPause_frame s (s.readyQueue.getD b PCB.zero) now
      by_cases hpid : (s.readyQueue.getD b PCB.zero).pid = -1
      · simp only [schedulePHPF, phpfStart, hk1, if_neg hk2, readAt_natCast, writeAt_natCast,
          if_pos hc, hq, if_pos hpid, getD_set_self _ _ _ hb.1]
        exact inv_spawn hidle hinv.metrics hb.1 rfl rfl rfl
          (fun h => hinv.metrics (s.readyQueue.getD b PCB.zero) (getD_mem _ _ hb.1) h) rfl rfl
      · simp only [schedulePHPF, phpfStart, hk1, if_neg hk2, readAt_natCast,
          if_pos hc, hq, if_neg hpid]
        exact inv_resume hidle hinv.metrics hb.1 rfl rfl rfl rfl
    · simp only [schedulePHPF, hk1, if_neg hk2, readAt_natCast, if_neg hc]; exact hinv

theorem inv_rrPreempt {s : Sched} (now timeQuantum : Int) (hinv : Inv s) :
    Inv (rrPreempt s now timeQuantum) := by
  by_cases hrun : s.runningProcessPid ≠ -1
  · by_cases hq : now - s.lastExecutionTime ≥ timeQuantum
    · obtain ⟨k, hk, hkl, _⟩ := hinv.index hrun
      simp only [rrPreempt, if_pos hrun, if_pos hq, hk, moveToTail_eq _ _ hkl]
      refine ⟨?_, ?_, ?_⟩
      · intro x hx
        exact absurd hx (idle_after_stop hinv.slot x)
      · intro h; exact absurd rfl h
      · intro P hP
        simp only [List.mem_append, List.mem_singleton] at hP
        rcases hP with h | h
        · exact hinv.metrics P (List.mem_of_mem_eraseIdx h)
        · rw [h]; exact hinv.metrics _ (getD_mem _ _ hkl)
    · simp only [rrPreempt, if_pos hrun, if_neg hq]; exact hinv
  · simp only [rrPreempt, if_neg hrun]; exact hinv

theorem inv_rrDispatch {s : Sched} (now forkPid : Int) (hinv : Inv s) :
    Inv (rrDispatch s now forkPid) := by
  by_cases hc : s.runningProcessPid = -1 ∧ s.readyQueue.length > 0
  · have hidle := idle_of_slot hinv.slot hc.1
    have h0 : (0 : Nat) < s.readyQueue.length := hc.2
    have hr : ∀ q : List PCB, readAt q 0 = q.getD 0 PCB.zero := fun q => readAt_natCast q 0
    have hw : ∀ (q : List PCB) (v : PCB), writeAt q 0 v = q.set 0 v :=
      fun q v => writeAt_natCast q 0 v
    by_cases hpid : (s.readyQueue.getD 0 PCB.zero).pid = -1
    · simp only [rrDispatch, rrStart, if_pos hc, hr, hw, if_pos hpid, getD_set_self _ _ _ h0]
      exact inv_spawn hidle hinv.metrics h0 rfl rfl rfl
        (fun h => hinv.metrics (s.readyQueue.getD 0 PCB.zero) (getD_mem _ _ h0) h) rfl rfl
    · simp only [rrDispatch, rrStart, if_pos hc, hr, if_neg hpid]
      exact inv_resume hidle hinv.metrics h0 rfl rfl rfl rfl
  · simp only [rrDispatch, if_neg hc]; exact hinv

theorem inv_schedule {algorithm timeQuantum : Int} {s s1 : Sched} {now forkPid : Int}
    (h : schedule algorithm timeQuantum s now forkPid = some s1) (hinv : Inv s) : Inv s1 := by
  simp only [schedule] at h
  split_ifs at h
  · rw [← Option.some.inj h]; exact inv_scheduleSJF now forkPid hinv
  · rw [← Option.some.inj h]; exact inv_schedulePHPF now forkPid hinv
  · rw [← Option.some.inj h]
    exact inv_rrDispatch now forkPid (inv_rrPreempt now timeQuantum hinv)

/-- Every reachable state satisfies the invariant. -/
theorem reachable_inv {algorithm timeQuantum : Int} {s : Sched}
    (h : Reachable algorithm timeQuantum s) : Inv s := by
  induction h with
  | init => exact inv_init
  | receive d rest now _ hadm ih => exact inv_admission hadm ih
  | tick now forkPid _ _ hs ih => exact inv_schedule hs ih
  | completion p now _ hp ih => exact inv_completion p now hp ih

/-- C8: in every state reachable under a policy, at most one worker is neither
paused nor terminated, and such a worker is the one in
the running slot: its pid is `runningProcessPid` and `currentProcessIndex` is
the index of a PCB of the queue carrying that pid. -/
theorem single_cpu (algorithm timeQuantum : Int) (s : Sched)
    (h : Reachable algorithm timeQuantum s) :
    (∀ p q, isRunning s.os p → isRunning s.os q → p = q) ∧
    (∀ p, isRunning s.os p →
      s.runningProcessPid = p ∧
      ∃ k : Nat, s.currentProcessIndex = (k : Int) ∧ k < s.readyQueue.length ∧
        (s.readyQueue.getD k PCB.zero).pid = p) := by
  have hinv := reachable_inv h
  constructor
  · intro p q hp hq
    rw [hinv.slot p hp, hinv.slot q hq]
  · intro p hp
    have hrun := hinv.slot p hp
    have hpos := isRunning_pos hp
    obtain ⟨k, hk, hkl, hpid⟩ := hinv.index (by omega)
    exact ⟨hrun.symm, k, hk, hkl, by rw [hpid, hrun]⟩

/-- C6: when the PCB at `currentProcessIndex = k` runs with pid `p`, the handler
for `p` at clock value `now` sets its `endTime` to `now` and its `waitingTime`
to `(now - arrivalTime) - runtime`, clears the running slot, logs the
"finished" line and leaves the queue length and every other PCB unchanged; and
in every reachable state each PCB whose `endTime` is set has
`waitingTime = (endTime - arrivalTime) - runtime`. -/
theorem handleProcessCompletion_metrics (s : Sched) (p now : Int) (k : Nat)
    (hp : 0 < p) (hrun : s.runningProcessPid = p)
    (hk : s.currentProcessIndex = (k : Int)) (hkl : k < s.readyQueue.length) :
    handleProcessCompletion s p now =
      { s with
          readyQueue := s.readyQueue.set k
            { s.readyQueue.getD k PCB.zero with
                endTime := now
                waitingTime := (now - (s.readyQueue.getD k PCB.zero).arrivalTime) -
                  (s.readyQueue.getD k PCB.zero).runtime }
          runningProcessPid := -1
          currentProcessIndex := -1
          log := s.log ++ [LogEvent.finished now (s.readyQueue.getD k PCB.zero).id
            (s.readyQueue.getD k PCB.zero).arrivalTime
            (s.readyQueue.getD k PCB.zero).runtime 0
            ((now - (s.readyQueue.getD k PCB.zero).arrivalTime) -
              (s.readyQueue.getD k PCB.zero).runtime)
            (now - (s.readyQueue.getD k PCB.zero).arrivalTime)] } ∧
    (handleProcessCompletion s p now).readyQueue.length = s.readyQueue.length ∧
    (∀ j, j ≠ k → (handleProcessCompletion s p now).readyQueue.getD j PCB.zero =
      s.readyQueue.getD j PCB.zero) ∧
    ((handleProcessCompletion s p now).readyQueue.getD k PCB.zero).endTime = now ∧
    ((handleProcessCompletion s p now).readyQueue.getD k PCB.zero).waitingTime =
      (now - (s.readyQueue.getD k PCB.zero).arrivalTime) -
        (s.readyQueue.getD k PCB.zero).runtime ∧
    (∀ (algorithm timeQuantum : Int) (t : Sched), Reachable algorithm timeQuantum t →
      ∀ P ∈ t.readyQueue, P.endTime ≠ -1 →
        P.waitingTime = (P.endTime - P.arrivalTime) - P.runtime) := by
  have hres := handleProcessCompletion_running s p now k hp hrun hk
  refine ⟨hres, ?_, ?_, ?_, ?_, ?_⟩
  · rw [hres]; exact List.length_set _ _ _
  · intro j hj
    rw [hres]
    exact getD_set_ne _ _ _ _ hj
  · rw [hres]
    simp only [getD_set_self _ _ _ hkl]
  · rw [hres]
    simp only [getD_set_self _ _ _ hkl]
  · intro algorithm timeQuantum t ht
    exact (reachable_inv ht).metrics

/-! ## The statements at concrete inputs -/

/-- `scheduleSJF_selection` on three admitted processes and an empty running slot. -/
theorem scheduleSJF_selection_witness :
    sjfExample.runningProcessPid = -1 ∧
    ∃ i : Nat, IsFirstMin PCB.remainingTime sjfExample.readyQueue i ∧
      (scheduleSJF sjfExample 7 100).currentProcessIndex = (i : Int) :=
  ⟨rfl, by
    obtain ⟨i, hi, heq⟩ := (scheduleSJF_selection sjfExample 7 100 rfl).1
      ⟨newProcess ⟨1, 0, 4, 2⟩, List.mem_cons_self _ _, by decide⟩
    exact ⟨i, hi, by rw [heq]⟩⟩

/-- `schedulePHPF_preemption` when process 2 (priority 1) arrives while process 1
(priority 5) runs. -/
theorem schedulePHPF_preemption_witness :
    (phpfExample.runningProcessPid ≠ -1 ∧ phpfExample.currentProcessIndex = ((0 : Nat) : Int) ∧
      IsFirstMin PCB.priority phpfExample.readyQueue 1) ∧
    (schedulePHPF phpfExample 2 101).readyQueue.getD 0 PCB.zero =
      phpfExample.readyQueue.getD 0 PCB.zero :=
  ⟨⟨by decide, by decide, by unfold IsFirstMin; decide⟩,
    ((schedulePHPF_preemption phpfExample 2 101 0 1 (by decide) (by decide)
      (by unfold IsFirstMin; decide)).1 (by decide)).2⟩

/-- `scheduleRR_quantum` one time unit into a quantum of 2. -/
theorem scheduleRR_quantum_witness :
    (rrExample.runningProcessPid ≠ -1 ∧ rrExample.currentProcessIndex = ((0 : Nat) : Int) ∧
      0 < rrExample.readyQueue.length ∧ (1 : Int) - rrExample.lastExecutionTime < 2) ∧
    scheduleRR rrExample 1 2 101 = rrExample :=
  ⟨⟨by decide, by decide, by decide, by decide⟩,
    ((scheduleRR_quantum rrExample 1 2 101 0 (by decide) (by decide) (by decide)).2.2.2
      (by decide)).2⟩

/-- `handleProcessCompletion_metrics` for worker 100, running at index 1, at clock
value 10. -/
theorem handleProcessCompletion_metrics_witness :
    ((0 : Int) < 100 ∧ sjfRunning.runningProcessPid = 100 ∧
      sjfRunning.currentProcessIndex = ((1 : Nat) : Int) ∧ 1 < sjfRunning.readyQueue.length) ∧
    ((handleProcessCompletion sjfRunning 100 10).readyQueue.getD 1 PCB.zero).endTime = 10 :=
  ⟨⟨by decide, by decide, by decide, by decide⟩,
    (handleProcessCompletion_metrics sjfRunning 100 10 1 (by decide) (by decide) (by decide)
      (by decide)).2.2.2.1⟩

/-- `handleProcessCompletion_idempotent` for worker 100, replayed at clock value 11. -/
theorem handleProcessCompletion_idempotent_witness :
    (0 : Int) < 100 ∧
    handleProcessCompletion (handleProcessCompletion sjfRunning 100 10) 100 11 =
      handleProcessCompletion sjfRunning 100 10 :=
  ⟨by decide, handleProcessCompletion_idempotent sjfRunning 100 10 11 (by decide)⟩

/-- `single_cpu` after one admission and one tick of the priority policy: worker
100 runs and is the one in the running slot. -/
theorem single_cpu_witness :
    Reachable 2 0 (schedulePHPF oneAdmitted 0 100) ∧
    isRunning (schedulePHPF oneAdmitted 0 100).os 100 ∧
    (schedulePHPF oneAdmitted 0 100).runningProcessPid = 100 := by
  have h1 : Reachable 2 0 oneAdmitted :=
    Reachable.receive descriptor1 [] 0 Reachable.init
      (by decide : admission Sched.init [descriptor1] 0 = some (oneAdmitted, []))
  have hr : Reachable 2 0 (schedulePHPF oneAdmitted 0 100) :=
    Reachable.tick 0 100 h1 (Or.inr (by decide))
      (by decide : schedule 2 0 oneAdmitted 0 100 = some (schedulePHPF oneAdmitted 0 100))
  exact ⟨hr, by decide,
    ((single_cpu 2 0 (schedulePHPF oneAdmitted 0 100) hr).2 100 (by decide)).1⟩
/-! ## Shortest-Job-First never preempts; the rotation of Round-Robin -/

theorem admission_slot {s s1 : Sched} {pending rest : List Descriptor} {now : Int}
    (h : admission s pending now = some (s1, rest)) :
    s1.runningProcessPid = s.runningProcessPid ∧
    s1.currentProcessIndex = s.currentProcessIndex ∧ s1.os = s.os := by
  cases pending with
  | nil =>
    simp only [admission, Option.some.injEq, Prod.mk.injEq] at h
    rw [← h.1]; exact ⟨rfl, rfl, rfl⟩
  | cons d ds =>
    simp only [admission] at h
    by_cases hcap : s.readyQueue.length < MAX_PROCESSES
    · rw [if_pos hcap] at h
      simp only [Option.some.injEq, Prod.mk.injEq] at h
      rw [← h.1]; exact ⟨rfl, rfl, rfl⟩
    · rw [if_neg hcap] at h; exact absurd h (by simp)

theorem scheduleSJF_os (s : Sched) (now forkPid : Int) :
    (scheduleSJF s now forkPid).os = s.os ∨
    ∃ a, (scheduleSJF s now forkPid).os = s.os ++ [OsEvent.fork forkPid a] := by
  simp only [scheduleSJF]
  split_ifs
  · exact Or.inl rfl
  · exact Or.inr ⟨_, rfl⟩
  · exact Or.inl rfl

theorem handleProcessCompletion_os (s : Sched) (p now : Int) :
    (handleProcessCompletion s p now).os = s.os := by
  simp only [handleProcessCompletion]
  split_ifs <;> rfl

theorem schedule_sjf (timeQuantum : Int) (s : Sched) (now forkPid : Int) :
    schedule 1 timeQuantum s now forkPid = some (scheduleSJF s now forkPid) := rfl

/-- Under Shortest-Job-First the scheduler sends no signal at all. -/
theorem sjf_no_kill {timeQuantum : Int} {s : Sched} (h : Reachable 1 timeQuantum s) :
    ∀ (p : Int) (sig : Signal), OsEvent.kill p sig ∉ s.os := by
  induction h with
  | init => intro p sig hmem; exact absurd hmem (List.not_mem_nil _)
  | receive d rest now _ hadm ih =>
    intro p sig hmem
    rw [(admission_slot hadm).2.2] at hmem
    exact ih p sig hmem
  | tick now forkPid _ _ hs ih =>
    intro p sig hmem
    rw [schedule_sjf] at hs
    rw [← Option.some.inj hs] at hmem
    rcases scheduleSJF_os _ now forkPid with h | ⟨a, h⟩
    · rw [h] at hmem; exact ih p sig hmem
    · rw [h, List.mem_append, List.mem_singleton] at hmem
      rcases hmem with hmem | hmem
      · exact ih p sig hmem
      · exact absurd hmem (by simp)
  | completion q now _ _ ih =>
    intro p sig hmem
    rw [handleProcessCompletion_os] at hmem
    simp only [workerExit, List.mem_append, List.mem_singleton] at hmem
    rcases hmem with hmem | hmem
    · exact ih p sig hmem
    · exact absurd hmem (by simp)

/-- C11: with a process in the running slot, one call of `scheduleSJF` returns
the state unchanged (running slot, every PCB, `cpuBusyTime`, OS trace, so no
signal is sent), whatever the queue holds; a whole loop iteration under policy
1 then keeps the running slot, so that only `handleProcessCompletion` clears
it; and no state reachable under policy 1 has a `kill` in its OS trace. -/
theorem scheduleSJF_never_preempts (s : Sched) (now forkPid : Int)
    (hrun : s.runningProcessPid ≠ -1) :
    scheduleSJF s now forkPid = s ∧
    (∀ (timeQuantum : Int) (pending rest : List Descriptor) (s1 : Sched),
      loopIteration 1 timeQuantum s pending now forkPid = some (s1, rest) →
        s1.runningProcessPid = s.runningProcessPid ∧
        s1.currentProcessIndex = s.currentProcessIndex ∧ s1.os = s.os) ∧
    (∀ (timeQuantum : Int) (t : Sched), Reachable 1 timeQuantum t →
      ∀ (p : Int) (sig : Signal), OsEvent.kill p sig ∉ t.os) := by
  have hkeep : ∀ t : Sched, t.runningProcessPid ≠ -1 → scheduleSJF t now forkPid = t := by
    intro t ht
    simp only [scheduleSJF, if_pos ht]
  refine ⟨hkeep s hrun, ?_, fun _ t ht => sjf_no_kill ht⟩
  intro timeQuantum pending rest s1 h
  simp only [loopIteration] at h
  cases hadm : admission s pending now with
  | none => rw [hadm] at h; exact absurd h (by simp)
  | some r =>
    obtain ⟨s0, rest0⟩ := r
    rw [hadm] at h
    simp only [schedule_sjf, Option.some.injEq, Prod.mk.injEq] at h
    obtain ⟨h1, h2, h3⟩ := admission_slot hadm
    have hrun0 : s0.runningProcessPid ≠ -1 := by rw [h1]; exact hrun
    rw [hkeep s0 hrun0] at h
    rw [← h.1]
    exact ⟨h1, h2, h3⟩

theorem getD_append_singleton_last (l : List PCB) (v : PCB) :
    (l ++ [v]).getD l.length PCB.zero = v := by
  simp [List.getD_eq_getElem?_getD]

/-- C12: for a queue of size `n ≥ 1` and an index `k < n`, the move-to-tail
step keeps the size, puts the PCB formerly at `k` at index `n - 1`, shifts the
PCBs formerly at `k+1 .. n-1` down by one, leaves the indices below `k`
untouched; the result is a permutation of the queue, and without its last PCB
it is the queue without the PCB at `k`, in the same order. -/
theorem moveToTail_permutation (q : List PCB) (k : Nat) (hk : k < q.length) :
    (moveToTail q (k : Int)).length = q.length ∧
    (moveToTail q (k : Int)).getD (q.length - 1) PCB.zero = q.getD k PCB.zero ∧
    (∀ j, k ≤ j → j + 1 < q.length →
      (moveToTail q (k : Int)).getD j PCB.zero = q.getD (j + 1) PCB.zero) ∧
    (∀ j, j < k → (moveToTail q (k : Int)).getD j PCB.zero = q.getD j PCB.zero) ∧
    List.Perm (moveToTail q (k : Int)) q ∧
    (moveToTail q (k : Int)).eraseIdx (q.length - 1) = q.eraseIdx k := by
  have heq := moveToTail_eq q k hk
  have hlen : (q.eraseIdx k).length = q.length - 1 := by
    rw [List.length_eraseIdx]; simp [hk]
  refine ⟨?_, ?_, ?_, ?_, ?_, ?_⟩
  · rw [heq, List.length_append, hlen, List.length_singleton]; omega
  · rw [heq, ← hlen]; exact getD_append_singleton_last _ _
  · intro j hkj hj
    rw [heq]
    simp only [List.getD_eq_getElem?_getD]
    rw [List.getElem?_append_left (by rw [hlen]; omega), List.getElem?_eraseIdx,
      if_neg (by omega)]
  · intro j hj
    rw [heq]
    simp only [List.getD_eq_getElem?_getD]
    rw [List.getElem?_append_left (by rw [hlen]; omega), List.getElem?_eraseIdx,
      if_pos hj]
  · rw [heq]
    have hq : q = q.take k ++ q[k] :: q.drop (k + 1) := by
      rw [← List.drop_eq_getElem_cons hk, List.take_append_drop]
    rw [List.getD_eq_getElem q PCB.zero hk, List.eraseIdx_eq_take_drop_succ]
    refine (List.perm_append_singleton _ _).trans ?_
    refine List.Perm.trans List.perm_middle.symm ?_
    rw [← hq]
  · rw [heq, ← hlen, List.eraseIdx_append_of_length_le (le_refl _)]
    simp

/-- `scheduleSJF_never_preempts` while process 1 (remaining time 5) runs and the
shorter process 2 (remaining time 3) waits. -/
theorem scheduleSJF_never_preempts_witness :
    phpfExample.runningProcessPid ≠ -1 ∧ scheduleSJF phpfExample 2 101 = phpfExample :=
  ⟨by decide, (scheduleSJF_never_preempts phpfExample 2 101 (by decide)).1⟩

/-- `moveToTail_permutation` on a queue of three PCBs, rotating the head. -/
theorem moveToTail_permutation_witness :
    0 < sjfExample.readyQueue.length ∧
    (moveToTail sjfExample.readyQueue ((0 : Nat) : Int)).getD
        (sjfExample.readyQueue.length - 1) PCB.zero =
      sjfExample.readyQueue.getD 0 PCB.zero ∧
    List.Perm (moveToTail sjfExample.readyQueue ((0 : Nat) : Int)) sjfExample.readyQueue :=
  ⟨by decide,
    (moveToTail_permutation sjfExample.readyQueue 0 (by decide)).2.1,
    (moveToTail_permutation sjfExample.readyQueue 0 (by decide)).2.2.2.2.1⟩

end Scheduler
